import Mathlib

/-
Shallow embedding of src/reid/trainers.py: the single-stream trainer
(`Trainer`), the dual-stream trainer (`CamStyleTrainer`), the forward
dispatch of both, the label-smoothing regularizer, the auxiliary-iterator
restart logic and the batch-norm freeze prologue.  External collaborators
(criterion objects, the accuracy metric, LogSoftmax, the data loaders and
the meters, none of which are under src/) enter as parameters or are
modelled from the spec where a claim depends on them.  Floats are embedded
as rationals.
-/

set_option linter.unusedVariables false

variable {β γ : Type}

/-- A matrix of rationals, standing for a 2-d tensor of floats. -/
abbrev Mat : Type := List (List ℚ)

/-- A scalar value together with its run-time shape: either still wrapped in
a 0-d/1-element tensor, or already a plain Python float. -/
inductive PrecValue where
  | tensor (q : ℚ)
  | flt (q : ℚ)
deriving DecidableEq

/-- Translation of the `.item()` call on a scalar tensor: unwraps it to a
plain float. -/
def PrecValue.item : PrecValue → PrecValue
  | .tensor q => .flt q
  | .flt q => .flt q

/-- The numeric value carried by a precision, whatever its shape. -/
def PrecValue.toQ : PrecValue → ℚ
  | .tensor q => q
  | .flt q => q

/-- Whether the value is a plain float (not tensor-wrapped). -/
def PrecValue.isFlt : PrecValue → Bool
  | .tensor _ => false
  | .flt _ => true

/-- The model's output for a batch (src/reid/trainers.py lines 119 and
212-213): either a single tensor (plain model) or the tuple
`(x_s, prediction_s)` of the global embedding and the per-part prediction
tensors (IDE_model / PCB_model).  The source branches on
`isinstance(self.model.module, IDE_model/PCB_model)`; the model class fully
determines the output shape, so the embedding branches on the shape. -/
inductive ModelOutput where
  | single (t : Mat)
  | withParts (x_s : Mat) (prediction_s : List Mat)
deriving DecidableEq

/-- The tag of `self.criterion`: `torch.nn.CrossEntropyLoss`, `TripletLoss`
with its margin, or any other criterion object, identified by a tag. -/
inductive Criterion where
  | crossEntropy
  | triplet (margin : ℚ)
  | other (tag : ℕ)
deriving DecidableEq

/-- Exceptions the trainer code can raise.  `unsupportedLoss` is the
`ValueError("Unsupported loss:", self.criterion)` of lines 141/229 and
carries the offending criterion; `valueError` stands for a tuple-unpacking
ValueError; `stopIteration` is iterator exhaustion; `indexError` is
out-of-range indexing. -/
inductive TrainError where
  | stopIteration
  | valueError
  | indexError
  | unsupportedLoss (c : Criterion)
deriving DecidableEq

/-- Result tuple of `_forward`: a 2-tuple `(loss, prec)` on the
classification path, or the metric loss's 4-tuple
`(loss, prec, dist_ap, dist_an)` on the triplet path. -/
inductive FwdRes where
  | pair (loss : ℚ) (prec : PrecValue)
  | quad (loss : ℚ) (prec : PrecValue) (dist_ap dist_an : List ℚ)
deriving DecidableEq

deriving instance DecidableEq for Except

/-- The loss component of a forward result. -/
def FwdRes.lossQ : FwdRes → ℚ
  | .pair l _ => l
  | .quad l _ _ _ => l

/-- The precision component of a forward result, with its shape. -/
def FwdRes.precVal : FwdRes → PrecValue
  | .pair _ p => p
  | .quad _ p _ _ => p

/-- The numeric precision component of a forward result. -/
def FwdRes.precQ (r : FwdRes) : ℚ := r.precVal.toQ

/-- Whether a forward result has the tuple arity that the training loop
destructures for the given criterion (4 for triplet, 2 otherwise). -/
def shapeOk : Criterion → FwdRes → Bool
  | .triplet _, .quad _ _ _ _ => true
  | .crossEntropy, .pair _ _ => true
  | .other _, .pair _ _ => true
  | _, _ => false

/-- Modelled from the spec: `AverageMeter` (src/reid/utils/meters.py, not
under src/) is the RunningStatistic: `update value weight` adds
`value*weight` to the running sum and `weight` to the count; `val` is the
last updated value and `avg` the running sum divided by the count. -/
structure AverageMeter where
  val : ℚ
  sum : ℚ
  count : ℚ
  avg : ℚ
deriving DecidableEq

/-- A freshly created meter, all fields zero. -/
def AverageMeter.empty : AverageMeter := ⟨0, 0, 0, 0⟩

/-- One `update(val, n)` call. -/
def AverageMeter.update (m : AverageMeter) (v w : ℚ) : AverageMeter :=
  ⟨v, m.sum + v * w, m.count + w, (m.sum + v * w) / (m.count + w)⟩

/-- `.mean()` of a 1-d tensor: sum divided by length. -/
def listMean (xs : List ℚ) : ℚ := xs.sum / xs.length

/-- Dot product of two rows; used to state the spec's formula in C4. -/
def listDot (xs ys : List ℚ) : ℚ := (List.zipWith (fun a b => a * b) xs ys).sum

/-- Translation of `CamStyleTrainer._class_to_one_hot` (lines 245-251):
start from zeros, scatter `0.9` at each example's label column, then add
`0.1/num_class` everywhere. -/
def classToOneHot (targets : List ℕ) (num_class : ℕ) : Mat :=
  targets.map (fun t =>
    (List.range num_class).map (fun j =>
      (if j = t then (9 : ℚ)/10 else 0) + (1 : ℚ)/10 / (num_class : ℚ)))

/-- Translation of `CamStyleTrainer._lsr_loss` (lines 235-243), parametric
in the external row-wise `LogSoftmax(dim=1)` (`ls`): negate the elementwise
product of the soft targets with the log-softmax output, sum over dim 1,
mean over dim 0; `num_class` is the column count of the logits. -/
def lsrLoss (ls : List ℚ → List ℚ) (outputs : Mat) (targets : List ℕ) : ℚ :=
  let num_class := (outputs.headD []).length
  let t := classToOneHot targets num_class
  let out := outputs.map ls
  let loss := List.zipWith (fun trow orow =>
    (List.zipWith (fun a b => -(a * b)) trow orow).sum) t out
  loss.sum / loss.length

/-- Lines 137-138 of `Trainer._forward`: for a part-based model the output
tuple is replaced by its first element `x_s` before the triplet criterion
is called; a plain tensor output is passed unchanged. -/
def trainerTripletArg : ModelOutput → ModelOutput
  | .withParts x_s _ => .single x_s
  | .single t => .single t

/-- Modelled from the spec: `TripletLoss` (src/reid/loss, not under src/)
returns the 4-tuple (loss, precision, dist_ap, dist_an) with the precision
already a plain floating scalar. -/
def tripletResultPrec (q : ℚ) : PrecValue := .flt q

/-- Translation of `Trainer._forward` (lines 118-142), parametric in the
external criteria: `ceLoss` is `torch.nn.CrossEntropyLoss`, `acc` the
`accuracy` metric (whose result tensor the source unwraps with `.item()`),
`tcrit` the `TripletLoss` instance. -/
def trainerForward (ceLoss : Mat → List ℕ → ℚ) (acc : Mat → List ℕ → ℚ)
    (tcrit : ModelOutput → List ℕ → ℚ × ℚ × List ℚ × List ℚ)
    (crit : Criterion) (outputs : ModelOutput) (targets : List ℕ) :
    Except TrainError FwdRes :=
  match crit with
  | .crossEntropy =>
    match outputs with
    | .withParts _ prediction_s =>
      let loss := (prediction_s.map (fun pred => ceLoss pred targets)).sum
      -- for PCB the source keeps `loss /= num_stripes` commented out: no division
      match prediction_s with
      | [] => .error .indexError   -- `prediction_s[0]` on an empty sequence
      | prediction :: _ =>
        let prec := PrecValue.item (.tensor (acc prediction targets))
        .ok (.pair loss prec)
    | .single out =>
      let prec := PrecValue.item (.tensor (acc out targets))
      .ok (.pair (ceLoss out targets) prec)
  | .triplet _ =>
    match tcrit (trainerTripletArg outputs) targets with
    | (l, p, dist_ap, dist_an) =>
      .ok (.quad l (tripletResultPrec p) dist_ap dist_an)
  | .other tag => .error (.unsupportedLoss (.other tag))

/-- Line 227 of `CamStyleTrainer._forward`: the expression passed to the
triplet criterion is the model output itself, with no extraction of its
first element. -/
def camStyleCriterionArg (outputs : ModelOutput) : ModelOutput := outputs

/-- Translation of the loss-dispatch part of `CamStyleTrainer._forward`
(lines 214-229).  On the triplet branch the source unpacks the criterion's
4-tuple into the two names `loss, prec` (line 227), which raises a
ValueError at run time. -/
def camStyleDispatch (ceLoss : Mat → List ℕ → ℚ) (acc : Mat → List ℕ → ℚ)
    (tcrit : ModelOutput → List ℕ → ℚ × ℚ × List ℚ × List ℚ)
    (crit : Criterion) (outputs : ModelOutput) (targets : List ℕ) :
    Except TrainError (ℚ × PrecValue) :=
  match crit with
  | .crossEntropy =>
    match outputs with
    | .withParts _ prediction_s =>
      let loss := (prediction_s.map (fun pred => ceLoss pred targets)).sum
      match prediction_s with
      | [] => .error .indexError
      | prediction :: _ =>
        .ok (loss, PrecValue.item (.tensor (acc prediction targets)))
    | .single out =>
      .ok (ceLoss out targets, PrecValue.item (.tensor (acc out targets)))
  | .triplet _ =>
    let _r := tcrit (camStyleCriterionArg outputs) targets
    .error .valueError
  | .other tag => .error (.unsupportedLoss (.other tag))

/-- Line 231: `camstyle_outputs[1][0]`, the first per-part prediction of the
auxiliary forward pass.  For a single-tensor output the chained indexing
produces a scalar whose `size()[1]` in `_lsr_loss` then fails; both failure
modes are modelled as an index error. -/
def camPartsFirst : ModelOutput → Except TrainError Mat
  | .withParts _ (p :: _) => .ok p
  | .withParts _ [] => .error .indexError
  | .single _ => .error .indexError

/-- Translation of `CamStyleTrainer._forward` (lines 211-233): dispatch on
the criterion, then add the label-smoothing regularizer of the auxiliary
batch to the loss (lines 231-232). -/
def camStyleForward (ceLoss : Mat → List ℕ → ℚ) (acc : Mat → List ℕ → ℚ)
    (tcrit : ModelOutput → List ℕ → ℚ × ℚ × List ℚ × List ℚ)
    (ls : List ℚ → List ℚ) (crit : Criterion)
    (outputs camstyle_outputs : ModelOutput)
    (targets camstyle_targets : List ℕ) : Except TrainError FwdRes :=
  match camStyleDispatch ceLoss acc tcrit crit outputs targets with
  | .error e => .error e
  | .ok lp =>
    match camPartsFirst camstyle_outputs with
    | .error e => .error e
    | .ok camFirst =>
      .ok (.pair (lp.1 + lsrLoss ls camFirst camstyle_targets) lp.2)

/-- The optimizer- and dispatch-calls that one loop iteration performs, in
order; used to state that each batch triggers exactly one forward dispatch
and one optimizer step. -/
inductive TrainEvent where
  | forwardCall
  | zeroGrad
  | backward
  | optStep
deriving DecidableEq

/-- A line printed by the trainer: the throttled per-batch line of lines
91-101/191-201 (wall-clock fields omitted), or the triplet epoch-end summary
of lines 104-108. -/
inductive LogLine where
  | batchLine (epoch iPlus1 total : ℕ) (lossVal lossAvg precVal precAvg : ℚ)
  | triSummary (prec sm d_ap d_an loss : ℚ)
deriving DecidableEq

/-- The mutable state of one `Trainer.train` call: the five triplet meters
of lines 38-42, the loss/precision meters of lines 54-55, plus the traces of
optimizer events and printed lines.  The wall-clock meters (`batch_time`,
`data_time`) measure external time and are not modelled. -/
structure TrainerState where
  prec_meter : AverageMeter
  sm_meter : AverageMeter
  dist_ap_meter : AverageMeter
  dist_an_meter : AverageMeter
  loss_meter : AverageMeter
  losses : AverageMeter
  precisions : AverageMeter
  trace : List TrainEvent
  logs : List LogLine
deriving DecidableEq

/-- All meters freshly created, nothing traced yet. -/
def initTrainerState : TrainerState :=
  ⟨.empty, .empty, .empty, .empty, .empty, .empty, .empty, [], []⟩

/-- The elementwise `dist_an > dist_ap + margin` indicator of line 65. -/
def smVec (margin : ℚ) (dist_ap dist_an : List ℚ) : List ℚ :=
  List.zipWith (fun an ap => if ap + margin < an then (1 : ℚ) else 0) dist_an dist_ap

/-- One body of the `for i, inputs in enumerate(data_loader)` loop of
`Trainer.train` (lines 58-101) after the forward call: unpack the forward
result (4 values for a triplet criterion, line 63; 2 otherwise, line 79),
update the meters, run the optimizer, and print the throttled line, which
line 91 disables for triplet criteria. -/
def trainerStep (crit : Criterion) (print_freq epoch total : ℕ) (w : ℕ)
    (i : ℕ) (r : FwdRes) (st : TrainerState) : Except TrainError TrainerState :=
  match crit with
  | .triplet margin =>
    match r with
    | .pair _ _ => .error .valueError    -- line 63 unpacks four values
    | .quad loss prec1 dist_ap dist_an =>
      let sm := listMean (smVec margin dist_ap dist_an)
      let d_ap := listMean dist_ap
      let d_an := listMean dist_an
      let losses := st.losses.update loss (w : ℚ)
      let precisions := st.precisions.update prec1.toQ (w : ℚ)
      .ok { prec_meter := st.prec_meter.update prec1.toQ 1,
            sm_meter := st.sm_meter.update sm 1,
            dist_ap_meter := st.dist_ap_meter.update d_ap 1,
            dist_an_meter := st.dist_an_meter.update d_an 1,
            loss_meter := st.loss_meter.update loss 1,
            losses := losses, precisions := precisions,
            trace := st.trace ++ [.zeroGrad, .backward, .optStep],
            logs := st.logs }
  | _ =>
    match r with
    | .quad _ _ _ _ => .error .valueError   -- line 79 unpacks two values
    | .pair loss prec1 =>
      let losses := st.losses.update loss (w : ℚ)
      let precisions := st.precisions.update prec1.toQ (w : ℚ)
      .ok { st with
            losses := losses, precisions := precisions,
            trace := st.trace ++ [.zeroGrad, .backward, .optStep],
            logs := if (i + 1) % print_freq = 0 then
                st.logs ++ [.batchLine epoch (i + 1) total
                  losses.val losses.avg precisions.val precisions.avg]
              else st.logs }

/-- The loop of `Trainer.train` over the remaining batches, parametric in
the composite of `_parse_data` and `_forward` (`forward`) and in the parsed
batch size `targets.size(0)` (`weight`). -/
def trainerRun (crit : Criterion) (forward : β → Except TrainError FwdRes)
    (weight : β → ℕ) (print_freq epoch total : ℕ) :
    List β → ℕ → TrainerState → Except TrainError TrainerState
  | [], _, st => .ok st
  | b :: rest, i, st =>
    match forward b with
    | .error e => .error e
    | .ok r =>
      match trainerStep crit print_freq epoch total (weight b) i r
          { st with trace := st.trace ++ [.forwardCall] } with
      | .error e => .error e
      | .ok st2 => trainerRun crit forward weight print_freq epoch total rest (i + 1) st2

/-- What one `train` call produces: its return value
`(losses.avg, precisions.avg)` plus the traces. -/
structure EpochResult where
  avgLoss : ℚ
  avgPrec : ℚ
  trace : List TrainEvent
  logs : List LogLine
deriving DecidableEq

/-- Translation of `Trainer.train` (lines 32-110): run every batch of the
primary stream, then — for a triplet criterion — print the epoch-end
summary from the meters' last values (`.val`, lines 104-108), and return
`(losses.avg, precisions.avg)`.  The `fix_bn` prologue of lines 43-50 only
mutates the model and is modelled separately by `applyFixBn`. -/
def Trainer.train (crit : Criterion) (forward : β → Except TrainError FwdRes)
    (weight : β → ℕ) (print_freq epoch : ℕ) (batches : List β) :
    Except TrainError EpochResult :=
  match trainerRun crit forward weight print_freq epoch batches.length
      batches 0 initTrainerState with
  | .error e => .error e
  | .ok st =>
    let logs :=
      match crit with
      | .triplet _ => st.logs ++ [.triSummary st.prec_meter.val st.sm_meter.val
          st.dist_ap_meter.val st.dist_an_meter.val st.loss_meter.val]
      | _ => st.logs
    .ok ⟨st.losses.avg, st.precisions.avg, st.trace, logs⟩

/-- `next()` on the auxiliary loader's cursor.  Modelled from the spec: the
loader itself (an external, restartable lazy sequence) is a finite list of
fetch outcomes — a faulty loader can raise errors other than exhaustion —
and the cursor is an index into it; past the end, `next` raises
StopIteration. -/
def iterNext (loader : List (Except TrainError γ)) (k : ℕ) :
    Except TrainError (γ × ℕ) :=
  match loader[k]? with
  | none => .error .stopIteration
  | some (.error e) => .error e
  | some (.ok b) => .ok (b, k + 1)

/-- Lines 172-176 of `CamStyleTrainer.train`: `try: next(...)` guarded by a
bare `except:` that catches any failure, recreates the cursor with
`iter(self.camstyle_loader)` and retries exactly once; a failure of that
retry propagates. -/
def fetchCamStyle (loader : List (Except TrainError γ)) (k : ℕ) :
    Except TrainError (γ × ℕ) :=
  match iterNext loader k with
  | .ok r => .ok r
  | .error _ => iterNext loader 0

/-- The mutable state of one `CamStyleTrainer.train` call: the meters of
lines 165-166, the auxiliary cursor position, and the traces. -/
structure CamState where
  losses : AverageMeter
  precisions : AverageMeter
  pos : ℕ
  trace : List TrainEvent
  logs : List LogLine
deriving DecidableEq

/-- The loop of `CamStyleTrainer.train` (lines 169-201): fetch an auxiliary
batch (restarting the cursor on any failure), forward both batches (the
result is unpacked into two values, line 179), update the meters, step the
optimizer, and print every `print_freq` batches. -/
def camRun (forward : β → γ → Except TrainError FwdRes) (weight : β → ℕ)
    (loader : List (Except TrainError γ)) (print_freq epoch total : ℕ) :
    List β → ℕ → CamState → Except TrainError CamState
  | [], _, st => .ok st
  | b :: rest, i, st =>
    match fetchCamStyle loader st.pos with
    | .error e => .error e
    | .ok (cam, pos2) =>
      match forward b cam with
      | .error e => .error e
      | .ok (.quad _ _ _ _) => .error .valueError  -- line 179 unpacks two values
      | .ok (.pair loss prec1) =>
        let losses := st.losses.update loss (weight b : ℚ)
        let precisions := st.precisions.update prec1.toQ (weight b : ℚ)
        camRun forward weight loader print_freq epoch total rest (i + 1)
          { losses := losses, precisions := precisions, pos := pos2,
            trace := st.trace ++ [.forwardCall, .zeroGrad, .backward, .optStep],
            logs := if (i + 1) % print_freq = 0 then
                st.logs ++ [.batchLine epoch (i + 1) total
                  losses.val losses.avg precisions.val precisions.avg]
              else st.logs }

/-- Translation of `CamStyleTrainer.train` (lines 151-203); `pos0` is the
auxiliary cursor position left over from the previous epoch (the cursor
lives on the trainer instance, line 149). -/
def CamStyleTrainer.train (forward : β → γ → Except TrainError FwdRes)
    (weight : β → ℕ) (loader : List (Except TrainError γ))
    (print_freq epoch pos0 : ℕ) (batches : List β) :
    Except TrainError EpochResult :=
  match camRun forward weight loader print_freq epoch batches.length
      batches 0 ⟨.empty, .empty, pos0, [], []⟩ with
  | .error e => .error e
  | .ok st => .ok ⟨st.losses.avg, st.precisions.avg, st.trace, st.logs⟩

/-- A submodule of the model, restricted to the state the freeze policy
touches: whether it is an `nn.BatchNorm2d`, its `affine` flag, its
train/eval mode, and the `requires_grad` flags of weight and bias. -/
structure NNModule where
  isBN : Bool
  affine : Bool
  training : Bool
  wReqGrad : Bool
  bReqGrad : Bool
deriving DecidableEq

/-- Lines 45-50 (equally 156-161): for a BatchNorm2d module, `m.eval()`
and, if the module is affine, freeze its weight and bias; any other module
is untouched. -/
def freezeBN (m : NNModule) : NNModule :=
  if m.isBN then
    { m with training := false,
             wReqGrad := if m.affine then false else m.wReqGrad,
             bReqGrad := if m.affine then false else m.bReqGrad }
  else m

/-- The modules of the model: the backbone subtree `model.module.base`
whose modules the freeze policy iterates, and the remaining
(head/classifier) modules. -/
structure ModelModules where
  base : List NNModule
  head : List NNModule
deriving DecidableEq

/-- The `if fix_bn:` prologue of both `train` methods (lines 43-50 and
154-161). -/
def applyFixBn (fix_bn : Bool) (model : ModelModules) : ModelModules :=
  if fix_bn then { model with base := model.base.map freezeBN } else model

/-- Weighted sum of a per-batch quantity, as accumulated by the meters. -/
def wsum (f : β → ℚ) (weight : β → ℕ) (bs : List β) : ℚ :=
  (bs.map (fun b => f b * (weight b : ℚ))).sum

/-- Total weight of a batch list. -/
def wtot (weight : β → ℕ) (bs : List β) : ℚ :=
  (bs.map (fun b => (weight b : ℚ))).sum

/-- `freezeBN` is idempotent on every module. -/
lemma freezeBN_idem (m : NNModule) : freezeBN (freezeBN m) = freezeBN m := by
  cases m with
  | mk i a t w b => cases i <;> cases a <;> simp [freezeBN]

/-- An exhausted cursor is always caught: the fetch becomes exactly one
fresh `next` on a cursor recreated at the start. -/
lemma fetchCamStyle_exhausted (loader : List (Except TrainError γ)) (k : ℕ)
    (hk : loader.length ≤ k) : fetchCamStyle loader k = iterNext loader 0 := by
  have h : loader[k]? = none := List.getElem?_eq_none hk
  unfold fetchCamStyle
  rw [show iterNext loader k = .error .stopIteration from by simp [iterNext, h]]

/-- Claim C8: applying the batch-norm freeze policy with freeze=true twice
yields exactly the state of applying it once; applying it with freeze=false
changes nothing; only the backbone subtree is touched (the head modules are
untouched, and non-BatchNorm backbone modules are left unchanged by the
per-module freeze). -/
theorem c8_fix_bn_policy :
    (∀ s : ModelModules, applyFixBn true (applyFixBn true s) = applyFixBn true s) ∧
    (∀ s : ModelModules, applyFixBn false s = s) ∧
    (∀ (fb : Bool) (s : ModelModules), (applyFixBn fb s).head = s.head) ∧
    (∀ m : NNModule, m.isBN = false → freezeBN m = m) ∧
    (∀ s : ModelModules, (applyFixBn true s).base = s.base.map freezeBN) := by
  refine ⟨fun s => ?_, fun s => ?_, fun fb s => ?_, fun m h => ?_, fun s => ?_⟩
  · cases s with
    | mk base head =>
      simp [applyFixBn, List.map_map, Function.comp_def, freezeBN_idem]
  · simp [applyFixBn]
  · cases fb <;> simp [applyFixBn]
  · simp [freezeBN, h]
  · simp [applyFixBn]

/-- Witness for C8 at a concrete model state. -/
theorem c8_fix_bn_policy_witness :
    applyFixBn true (applyFixBn true
      (⟨[⟨true, true, true, true, true⟩], [⟨true, true, true, true, true⟩]⟩ : ModelModules))
      = applyFixBn true ⟨[⟨true, true, true, true, true⟩], [⟨true, true, true, true, true⟩]⟩ ∧
    freezeBN ⟨false, true, true, true, true⟩ = ⟨false, true, true, true, true⟩ :=
  ⟨c8_fix_bn_policy.1 _, c8_fix_bn_policy.2.2.2.1 _ rfl⟩

/-- Claim C9: with a criterion that is neither the classification loss nor
the triplet loss, both forward dispatches fail with the unsupported-loss
error carrying the offending criterion, and the single-stream and
dual-stream training loops surface that error to the caller unchanged
(the first batch already aborts the epoch). -/
theorem c9_unsupported_loss :
    (∀ (ceLoss acc : Mat → List ℕ → ℚ)
      (tcrit : ModelOutput → List ℕ → ℚ × ℚ × List ℚ × List ℚ)
      (tag : ℕ) (outputs : ModelOutput) (targets : List ℕ),
      trainerForward ceLoss acc tcrit (.other tag) outputs targets
        = .error (.unsupportedLoss (.other tag))) ∧
    (∀ (ceLoss acc : Mat → List ℕ → ℚ)
      (tcrit : ModelOutput → List ℕ → ℚ × ℚ × List ℚ × List ℚ)
      (ls : List ℚ → List ℚ) (tag : ℕ) (o co : ModelOutput) (t ct : List ℕ),
      camStyleForward ceLoss acc tcrit ls (.other tag) o co t ct
        = .error (.unsupportedLoss (.other tag))) ∧
    (∀ (ceLoss acc : Mat → List ℕ → ℚ)
      (tcrit : ModelOutput → List ℕ → ℚ × ℚ × List ℚ × List ℚ)
      (model : β → ModelOutput) (tg : β → List ℕ) (weight : β → ℕ)
      (pf ep tag : ℕ) (b : β) (bs : List β),
      Trainer.train (.other tag)
        (fun x => trainerForward ceLoss acc tcrit (.other tag) (model x) (tg x))
        weight pf ep (b :: bs) = .error (.unsupportedLoss (.other tag))) ∧
    (∀ (ceLoss acc : Mat → List ℕ → ℚ)
      (tcrit : ModelOutput → List ℕ → ℚ × ℚ × List ℚ × List ℚ)
      (ls : List ℚ → List ℚ) (model : β → ModelOutput) (camModel : γ → ModelOutput)
      (tg : β → List ℕ) (ctg : γ → List ℕ) (weight : β → ℕ)
      (pf ep tag : ℕ) (g : γ) (b : β) (bs : List β),
      CamStyleTrainer.train
        (fun x c => camStyleForward ceLoss acc tcrit ls (.other tag)
          (model x) (camModel c) (tg x) (ctg c))
        weight [Except.ok g] pf ep 0 (b :: bs)
        = .error (.unsupportedLoss (.other tag))) :=
  ⟨fun _ _ _ _ _ _ => rfl, fun _ _ _ _ _ _ _ _ _ => rfl,
   fun _ _ _ _ _ _ _ _ _ _ _ => rfl, fun _ _ _ _ _ _ _ _ _ _ _ _ _ _ _ => rfl⟩

/-- Claim C3: when the auxiliary cursor is exhausted the exhaustion is
caught and the fetch becomes exactly one retry on a cursor recreated from
the start of the stream (so with a nonempty auxiliary stream the first
batch is returned and no failure surfaces); if the auxiliary stream has
zero batches, the single retry fails and the error propagates out of the
dual-stream `train` as a fatal StopIteration. -/
theorem c3_aux_restart :
    (∀ (loader : List (Except TrainError γ)) (k : ℕ), loader.length ≤ k →
      fetchCamStyle loader k = iterNext loader 0) ∧
    (∀ (g : γ) (rest : List (Except TrainError γ)) (k : ℕ),
      (Except.ok g :: rest).length ≤ k →
      fetchCamStyle (Except.ok g :: rest) k = .ok (g, 1)) ∧
    (∀ (forward : β → γ → Except TrainError FwdRes) (weight : β → ℕ)
      (pf ep pos0 : ℕ) (b : β) (bs : List β),
      CamStyleTrainer.train forward weight ([] : List (Except TrainError γ))
        pf ep pos0 (b :: bs) = .error .stopIteration) := by
  refine ⟨fun loader k hk => fetchCamStyle_exhausted loader k hk,
          fun g rest k hk => ?_, fun forward weight pf ep pos0 b bs => ?_⟩
  · rw [fetchCamStyle_exhausted _ k hk]; simp [iterNext]
  · rfl

/-- Witness for C3: a cursor past the end of a one-batch stream restarts
and returns the first batch. -/
theorem c3_aux_restart_witness :
    fetchCamStyle [Except.ok (5 : ℕ)] 3 = iterNext [Except.ok (5 : ℕ)] 0 ∧
    fetchCamStyle [Except.ok (5 : ℕ)] 3 = .ok (5, 1) :=
  ⟨(@c3_aux_restart Unit ℕ).1 [Except.ok (5 : ℕ)] 3 (by norm_num),
   (@c3_aux_restart Unit ℕ).2.1 (5 : ℕ) [] 3 (by norm_num)⟩

/-- Claim C10: the bare `except:` guarding the auxiliary fetch catches
every failure of the first `next`, not only exhaustion — whatever error the
first fetch raises, the cursor is silently recreated and the fetch retried
from the start of the stream. -/
theorem c10_bare_catch :
    ∀ (loader : List (Except TrainError γ)) (k : ℕ) (e : TrainError),
      iterNext loader k = .error e → fetchCamStyle loader k = iterNext loader 0 := by
  intro loader k e h
  unfold fetchCamStyle
  rw [h]

/-- Witness for C10: a non-exhaustion failure (a ValueError raised by the
second fetch position) is swallowed and the restarted fetch returns the
stream's first batch. -/
theorem c10_bare_catch_witness :
    fetchCamStyle [Except.ok (3 : ℕ), Except.error TrainError.valueError] 1
      = iterNext [Except.ok (3 : ℕ), Except.error TrainError.valueError] 0 ∧
    iterNext [Except.ok (3 : ℕ), Except.error TrainError.valueError] 0 = .ok (3, 1) :=
  ⟨c10_bare_catch _ 1 .valueError rfl, rfl⟩

/-- Counterexample to claim C1: in the dual-stream trainer the expression
handed to the metric criterion is the whole model output — a per-part tuple,
not its first element — and the triplet branch of its forward step fails
instead of returning the criterion's 4-tuple. -/
theorem c1_counterexample :
    camStyleCriterionArg (ModelOutput.withParts [[1]] [[[2]]])
        = ModelOutput.withParts [[1]] [[[2]]] ∧
    ModelOutput.withParts [[1]] [[[2]]] ≠ ModelOutput.single [[1]] ∧
    camStyleForward (fun _ _ => 0) (fun _ _ => 0) (fun _ _ => (0, 0, [], []))
        (fun r => r) (.triplet 0) (ModelOutput.withParts [[1]] [[[2]]])
        (ModelOutput.withParts [[1]] [[[2]]]) [0] [0] = .error .valueError :=
  ⟨rfl, by decide, rfl⟩

/-- Claim C1 as amended: in the single-stream trainer's forward step with a
metric (triplet) criterion and a per-part model output, exactly the first
element of the output tuple is passed to the metric loss function and the
loss function's 4-tuple result is returned unchanged; the dual-stream
trainer's forward step instead passes the entire model output, unextracted,
to the metric loss function and its two-name unpacking of the 4-tuple
result fails with a ValueError. -/
theorem c1_amended_thm :
    (∀ (ceLoss acc : Mat → List ℕ → ℚ)
      (tcrit : ModelOutput → List ℕ → ℚ × ℚ × List ℚ × List ℚ)
      (m : ℚ) (x_s : Mat) (ps : List Mat) (t : List ℕ)
      (l p : ℚ) (dap dan : List ℚ),
      tcrit (.single x_s) t = (l, p, dap, dan) →
      trainerTripletArg (.withParts x_s ps) = .single x_s ∧
      trainerForward ceLoss acc tcrit (.triplet m) (.withParts x_s ps) t
        = .ok (.quad l (tripletResultPrec p) dap dan)) ∧
    (∀ o : ModelOutput, camStyleCriterionArg o = o) ∧
    (∀ (ceLoss acc : Mat → List ℕ → ℚ)
      (tcrit : ModelOutput → List ℕ → ℚ × ℚ × List ℚ × List ℚ)
      (ls : List ℚ → List ℚ) (m : ℚ) (o co : ModelOutput) (t ct : List ℕ),
      camStyleForward ceLoss acc tcrit ls (.triplet m) o co t ct
        = .error .valueError) := by
  refine ⟨fun ceLoss acc tcrit m x_s ps t l p dap dan h => ⟨rfl, ?_⟩,
          fun o => rfl, fun _ _ _ _ _ _ _ _ _ => rfl⟩
  simp only [trainerForward, trainerTripletArg]
  rw [h]

/-- Witness for the amended C1 at a concrete criterion and output. -/
theorem c1_amended_witness :
    trainerForward (fun _ _ => 0) (fun _ _ => 0) (fun _ _ => (1, 2, [3], [4]))
      (.triplet 0) (ModelOutput.withParts [[1]] [[[2]]]) [0]
      = .ok (.quad 1 (tripletResultPrec 2) [3] [4]) :=
  (c1_amended_thm.1 (fun _ _ => 0) (fun _ _ => 0) (fun _ _ => (1, 2, [3], [4]))
    0 [[1]] [[[2]]] [0] 1 2 [3] [4] rfl).2

/-- Counterexample to claim C2: a dual-stream forward dispatch with a
classification criterion and one part whose per-part classification loss
sums to 1 returns loss 2 — the auxiliary label-smoothing term (here equal
to 1) is added — so the returned loss is not the sum over parts. -/
theorem c2_counterexample :
    camStyleForward (fun _ _ => 1) (fun _ _ => 0) (fun _ _ => (0, 0, [], []))
        (fun _ => [-1, -1]) .crossEntropy
        (ModelOutput.withParts [[0]] [[[5, 5]]])
        (ModelOutput.withParts [[0]] [[[0, 0]]]) [0] [0]
      = .ok (.pair 2 (.flt 0)) ∧
    (([[[5, 5]]] : List Mat).map (fun q => (fun (_ : Mat) (_ : List ℕ) => (1 : ℚ)) q [0])).sum = 1 ∧
    (2 : ℚ) ≠ 1 := by
  refine ⟨?_, by simp, by norm_num⟩
  norm_num [camStyleForward, camStyleDispatch, camPartsFirst, PrecValue.item,
    lsrLoss, classToOneHot, List.range_succ]

/-- Claim C2 as amended: with a classification criterion and a per-part
model output, the per-part classification losses are summed with no
division by the number of parts and the precision comes from the first
part's logits, in both trainers; the single-stream dispatch returns that
sum directly, while the dual-stream dispatch returns that sum plus the
auxiliary label-smoothing regularizer. -/
theorem c2_amended_thm :
    (∀ (ceLoss acc : Mat → List ℕ → ℚ)
      (tcrit : ModelOutput → List ℕ → ℚ × ℚ × List ℚ × List ℚ)
      (e p : Mat) (ps : List Mat) (t : List ℕ),
      trainerForward ceLoss acc tcrit .crossEntropy (.withParts e (p :: ps)) t
        = .ok (.pair (((p :: ps).map (fun q => ceLoss q t)).sum)
            (.flt (acc p t)))) ∧
    (∀ (ceLoss acc : Mat → List ℕ → ℚ)
      (tcrit : ModelOutput → List ℕ → ℚ × ℚ × List ℚ × List ℚ)
      (ls : List ℚ → List ℚ) (e p : Mat) (ps : List Mat)
      (co : ModelOutput) (cf : Mat) (t ct : List ℕ),
      camPartsFirst co = .ok cf →
      camStyleForward ceLoss acc tcrit ls .crossEntropy (.withParts e (p :: ps)) co t ct
        = .ok (.pair (((p :: ps).map (fun q => ceLoss q t)).sum + lsrLoss ls cf ct)
            (.flt (acc p t)))) := by
  refine ⟨fun ceLoss acc tcrit e p ps t => rfl,
          fun ceLoss acc tcrit ls e p ps co cf t ct h => ?_⟩
  simp only [camStyleForward, camStyleDispatch]
  rw [h]
  rfl

/-- Witness for the amended C2 at concrete inputs (the instance of the
counterexample, whose auxiliary term equals 1). -/
theorem c2_amended_witness :
    camStyleForward (fun _ _ => 1) (fun _ _ => 0) (fun _ _ => (0, 0, [], []))
        (fun _ => [-1, -1]) .crossEntropy
        (ModelOutput.withParts [[0]] [[[5, 5]]])
        (ModelOutput.withParts [[0]] [[[0, 0]]]) [0] [0]
      = .ok (.pair ((([[[5, 5]]] : List Mat).map
            (fun q => (fun (_ : Mat) (_ : List ℕ) => (1 : ℚ)) q [0])).sum
          + lsrLoss (fun _ => [-1, -1]) [[0, 0]] [0]) (.flt 0)) :=
  c2_amended_thm.2 (fun _ _ => 1) (fun _ _ => 0) (fun _ _ => (0, 0, [], []))
    (fun _ => [-1, -1]) [[0]] [[5, 5]] [] (ModelOutput.withParts [[0]] [[[0, 0]]])
    [[0, 0]] [0] [0] rfl

/-- Every successful criterion dispatch of the dual-stream trainer yields a
plain-float precision. -/
lemma camStyleDispatch_prec_flt (ceLoss acc : Mat → List ℕ → ℚ)
    (tcrit : ModelOutput → List ℕ → ℚ × ℚ × List ℚ × List ℚ)
    (crit : Criterion) (o : ModelOutput) (t : List ℕ) (lp : ℚ × PrecValue)
    (h : camStyleDispatch ceLoss acc tcrit crit o t = .ok lp) :
    lp.2.isFlt = true := by
  cases crit with
  | crossEntropy =>
    cases o with
    | withParts e ps =>
      cases ps with
      | nil => simp [camStyleDispatch] at h
      | cons p ps =>
        simp only [camStyleDispatch, PrecValue.item, Except.ok.injEq] at h
        subst h
        rfl
    | single t2 =>
      simp only [camStyleDispatch, PrecValue.item, Except.ok.injEq] at h
      subst h
      rfl
  | triplet m => simp [camStyleDispatch] at h
  | other tag => simp [camStyleDispatch] at h

/-- Claim C6: on every dispatch path of both trainers, a successfully
returned precision is a plain floating scalar, never a tensor — the
classification paths unwrap the accuracy tensor with `.item()`, and the
metric-loss path returns the loss function's own plain-float precision. -/
theorem c6_precision_plain_float :
    (∀ (ceLoss acc : Mat → List ℕ → ℚ)
      (tcrit : ModelOutput → List ℕ → ℚ × ℚ × List ℚ × List ℚ)
      (crit : Criterion) (outputs : ModelOutput) (targets : List ℕ) (r : FwdRes),
      trainerForward ceLoss acc tcrit crit outputs targets = .ok r →
      r.precVal.isFlt = true) ∧
    (∀ (ceLoss acc : Mat → List ℕ → ℚ)
      (tcrit : ModelOutput → List ℕ → ℚ × ℚ × List ℚ × List ℚ)
      (ls : List ℚ → List ℚ) (crit : Criterion) (o co : ModelOutput)
      (t ct : List ℕ) (r : FwdRes),
      camStyleForward ceLoss acc tcrit ls crit o co t ct = .ok r →
      r.precVal.isFlt = true) := by
  constructor
  · intro ceLoss acc tcrit crit outputs targets r h
    cases crit with
    | crossEntropy =>
      cases outputs with
      | withParts e ps =>
        cases ps with
        | nil => simp [trainerForward] at h
        | cons p ps =>
          simp only [trainerForward, PrecValue.item, Except.ok.injEq] at h
          subst h
          rfl
      | single t2 =>
        simp only [trainerForward, PrecValue.item, Except.ok.injEq] at h
        subst h
        rfl
    | triplet m =>
      rcases htc : tcrit (trainerTripletArg outputs) targets with ⟨l, p, dap, dan⟩
      simp only [trainerForward, htc, tripletResultPrec, Except.ok.injEq] at h
      subst h
      rfl
    | other tag => simp [trainerForward] at h
  · intro ceLoss acc tcrit ls crit o co t ct r h
    cases hd : camStyleDispatch ceLoss acc tcrit crit o t with
    | error e => simp [camStyleForward, hd] at h
    | ok lp =>
      cases hc : camPartsFirst co with
      | error e => simp [camStyleForward, hd, hc] at h
      | ok cf =>
        simp only [camStyleForward, hd, hc, Except.ok.injEq] at h
        subst h
        simpa [FwdRes.precVal] using camStyleDispatch_prec_flt ceLoss acc tcrit crit o t lp hd

/-- Witness for C6: a concrete classification dispatch whose returned
precision is the plain float 1/2. -/
theorem c6_precision_plain_float_witness :
    (FwdRes.pair 0 (PrecValue.flt (1/2))).precVal.isFlt = true :=
  c6_precision_plain_float.1 (fun _ _ => 0) (fun _ _ => 1/2) (fun _ _ => (0, 0, [], []))
    .crossEntropy (.single [[1]]) [0] (FwdRes.pair 0 (PrecValue.flt (1/2))) rfl

/-- Bridge between list sums over `List.range` and `Finset.range` sums. -/
lemma list_range_map_sum (n : ℕ) (f : ℕ → ℚ) :
    ((List.range n).map f).sum = ∑ i in Finset.range n, f i := by
  induction n with
  | zero => simp
  | succ n ih =>
    rw [List.range_succ, List.map_append, List.sum_append, Finset.sum_range_succ, ih]
    simp

/-- Row-wise: the sum of negated elementwise products is the negated dot
product. -/
lemma zip_neg_mul_sum (xs ys : List ℚ) :
    (List.zipWith (fun a b => -(a * b)) xs ys).sum = -(listDot xs ys) := by
  induction xs generalizing ys with
  | nil => simp [listDot]
  | cons x xs ih =>
    cases ys with
    | nil => simp [listDot]
    | cons y ys =>
      simp only [List.zipWith_cons_cons, List.sum_cons, ih, listDot, neg_add]

/-- Claim C4: for any `num_class ≥ 1` and valid label, the soft target row
gives the true class `0.9 + 0.1/num_class` and every other class
`0.1/num_class`, the row sums to exactly 1, and the regularizer's result is
the batch mean of the negative per-example dot products of the soft target
rows with the log-softmax rows. -/
theorem c4_soft_target :
    ∀ (n t : ℕ), 1 ≤ n → t < n →
      (∀ j, j < n →
        (((classToOneHot [t] n).headD [])[j]?
          = some (if j = t then 9/10 + 1/(10 * (n : ℚ)) else 1/(10 * (n : ℚ))))) ∧
      ((classToOneHot [t] n).headD []).sum = 1 ∧
      (∀ (ls : List ℚ → List ℚ) (outputs : Mat) (targets : List ℕ),
        lsrLoss ls outputs targets
          = listMean (List.zipWith (fun trow orow => -(listDot trow orow))
              (classToOneHot targets ((outputs.headD []).length)) (outputs.map ls))) := by
  intro n t hn ht
  have hne : (n : ℚ) ≠ 0 := Nat.cast_ne_zero.mpr (by omega)
  refine ⟨fun j hj => ?_, ?_, fun ls outputs targets => ?_⟩
  · simp only [classToOneHot, List.map_cons, List.map_nil, List.headD_cons]
    rw [List.getElem?_map, List.getElem?_eq_getElem (by simpa using hj)]
    simp only [List.getElem_range, Option.map_some']
    by_cases hjt : j = t
    · subst hjt
      rw [div_div]
      simp
    · simp only [if_neg hjt, zero_add]
      rw [div_div]
  · simp only [classToOneHot, List.map_cons, List.map_nil, List.headD_cons]
    rw [list_range_map_sum n (fun j => (if j = t then (9 : ℚ)/10 else 0) + (1 : ℚ)/10 / (n : ℚ))]
    rw [Finset.sum_add_distrib, Finset.sum_ite_eq' (Finset.range n) t fun _ => (9 : ℚ)/10,
        Finset.sum_const, Finset.card_range, nsmul_eq_mul]
    rw [if_pos (Finset.mem_range.mpr ht)]
    field_simp
    ring
  · have hF : (fun (trow orow : List ℚ) =>
        (List.zipWith (fun a b => -(a * b)) trow orow).sum)
        = fun (trow orow : List ℚ) => -(listDot trow orow) := by
      funext trow orow
      exact zip_neg_mul_sum trow orow
    simp only [lsrLoss, listMean, hF]

/-- Witness for C4 at `num_class = 2`, label 0: entries 19/20 and 1/20, row
sum 1. -/
theorem c4_soft_target_witness :
    (((classToOneHot [0] 2).headD [])[0]? = some (9/10 + 1/(10 * (2 : ℚ)))) ∧
    (((classToOneHot [0] 2).headD [])[1]? = some (1/(10 * (2 : ℚ)))) ∧
    ((classToOneHot [0] 2).headD []).sum = 1 := by
  have h := c4_soft_target 2 0 (by norm_num) (by norm_num)
  refine ⟨?_, ?_, h.2.1⟩
  · simpa using h.1 0 (by norm_num)
  · simpa using h.1 1 (by norm_num)

/-- The optimizer/dispatch events of one epoch over `n` batches: per batch,
one forward dispatch, one gradient clear, one backward pass and one
optimizer step, in that order. -/
def epochTrace (n : ℕ) : List TrainEvent :=
  (List.replicate n
    ([.forwardCall, .zeroGrad, .backward, .optStep] : List TrainEvent)).flatten

/-- How many times an event occurs in a trace. -/
def countEvent (e : TrainEvent) : List TrainEvent → ℕ
  | [] => 0
  | x :: xs => (if x = e then 1 else 0) + countEvent e xs

lemma epochTrace_zero : epochTrace 0 = [] := rfl

lemma epochTrace_succ (n : ℕ) :
    epochTrace (n + 1)
      = [.forwardCall, .zeroGrad, .backward, .optStep] ++ epochTrace n := by
  simp [epochTrace, List.replicate_succ]

lemma countEvent_append (e : TrainEvent) (l1 l2 : List TrainEvent) :
    countEvent e (l1 ++ l2) = countEvent e l1 + countEvent e l2 := by
  induction l1 with
  | nil => simp [countEvent]
  | cons x xs ih => simp [countEvent, ih, Nat.add_assoc]

lemma countEvent_epochTrace_forward (n : ℕ) :
    countEvent .forwardCall (epochTrace n) = n := by
  induction n with
  | zero => rfl
  | succ n ih =>
    rw [epochTrace_succ, countEvent_append, ih]
    simp [countEvent]
    omega

lemma countEvent_epochTrace_step (n : ℕ) :
    countEvent .optStep (epochTrace n) = n := by
  induction n with
  | zero => rfl
  | succ n ih =>
    rw [epochTrace_succ, countEvent_append, ih]
    simp [countEvent]
    omega

/-- A well-shaped forward result makes the loop body succeed, updating the
loss/precision meters with the result's loss and precision and appending
the optimizer events. -/
lemma trainerStep_ok (crit : Criterion) (pf ep tot w i : ℕ) (r : FwdRes)
    (st : TrainerState) (h : shapeOk crit r = true) :
    ∃ st2, trainerStep crit pf ep tot w i r st = .ok st2 ∧
      st2.losses = st.losses.update r.lossQ (w : ℚ) ∧
      st2.precisions = st.precisions.update r.precQ (w : ℚ) ∧
      st2.trace = st.trace ++ [.zeroGrad, .backward, .optStep] := by
  cases crit with
  | triplet m =>
    cases r with
    | pair l p => simp [shapeOk] at h
    | quad l p dap dan => exact ⟨_, rfl, rfl, rfl, rfl⟩
  | crossEntropy =>
    cases r with
    | pair l p => exact ⟨_, rfl, rfl, rfl, rfl⟩
    | quad l p dap dan => simp [shapeOk] at h
  | other t =>
    cases r with
    | pair l p => exact ⟨_, rfl, rfl, rfl, rfl⟩
    | quad l p dap dan => simp [shapeOk] at h

lemma wsum_cons (f : β → ℚ) (weight : β → ℕ) (b : β) (bs : List β) :
    wsum f weight (b :: bs) = f b * (weight b : ℚ) + wsum f weight bs := by
  simp [wsum]

lemma wtot_cons (weight : β → ℕ) (b : β) (bs : List β) :
    wtot weight (b :: bs) = (weight b : ℚ) + wtot weight bs := by
  simp [wtot]

/-- Running the single-stream loop over well-shaped, successful forwards:
every batch is processed, the loss/precision meters accumulate the weighted
sums, the running average is sum/count, and the trace is exactly one
(forward, zero-grad, backward, step) quadruple per batch. -/
lemma trainerRun_spec (crit : Criterion) (forward : β → Except TrainError FwdRes)
    (R : β → FwdRes) (weight : β → ℕ) (pf ep tot : ℕ) :
    ∀ (bs : List β) (i : ℕ) (st : TrainerState),
      (∀ b ∈ bs, forward b = .ok (R b) ∧ shapeOk crit (R b) = true) →
      ∃ st2,
        trainerRun crit forward weight pf ep tot bs i st = .ok st2 ∧
        st2.losses.sum = st.losses.sum + wsum (fun b => (R b).lossQ) weight bs ∧
        st2.losses.count = st.losses.count + wtot weight bs ∧
        st2.precisions.sum = st.precisions.sum + wsum (fun b => (R b).precQ) weight bs ∧
        st2.precisions.count = st.precisions.count + wtot weight bs ∧
        (bs ≠ [] → st2.losses.avg = st2.losses.sum / st2.losses.count ∧
                   st2.precisions.avg = st2.precisions.sum / st2.precisions.count) ∧
        (bs = [] → st2 = st) ∧
        st2.trace = st.trace ++ epochTrace bs.length := by
  intro bs
  induction bs with
  | nil =>
    intro i st h
    refine ⟨st, rfl, ?_, ?_, ?_, ?_, fun hne => absurd rfl hne, fun _ => rfl, ?_⟩
    all_goals simp [wsum, wtot, epochTrace_zero]
  | cons b rest ih =>
    intro i st h
    have hb := h b (List.mem_cons_self b rest)
    have hrest : ∀ x ∈ rest, forward x = .ok (R x) ∧ shapeOk crit (R x) = true :=
      fun x hx => h x (List.mem_cons_of_mem b hx)
    obtain ⟨st1, hstep, hL, hP, htr⟩ := trainerStep_ok crit pf ep tot (weight b) i (R b)
      { st with trace := st.trace ++ [.forwardCall] } hb.2
    obtain ⟨st2, hrun, hL2, hC2, hP2, hPC2, havg, hnilcase, htr2⟩ := ih (i + 1) st1 hrest
    refine ⟨st2, ?_, ?_, ?_, ?_, ?_, fun _ => ?_, fun hcontra => ?_, ?_⟩
    · simp [trainerRun, hb.1, hstep, hrun]
    · rw [hL2, hL, wsum_cons]
      simp [AverageMeter.update]
      ring
    · rw [hC2, hL, wtot_cons]
      simp [AverageMeter.update]
      ring
    · rw [hP2, hP, wsum_cons]
      simp [AverageMeter.update]
      ring
    · rw [hPC2, hP, wtot_cons]
      simp [AverageMeter.update]
      ring
    · by_cases hr : rest = []
      · rw [hnilcase hr, hL, hP]
        exact ⟨rfl, rfl⟩
      · exact havg hr
    · exact absurd hcontra (List.cons_ne_nil b rest)
    · rw [htr2, htr, List.length_cons, epochTrace_succ]
      simp

/-- With a nonempty auxiliary stream whose first entry is a good batch, the
guarded fetch always succeeds, at every cursor position. -/
lemma fetchCamStyle_head_ok (g : γ) (rest : List (Except TrainError γ)) (k : ℕ) :
    ∃ c p2, fetchCamStyle (Except.ok g :: rest) k = .ok (c, p2) := by
  cases hi : iterNext (Except.ok g :: rest) k with
  | ok r => exact ⟨r.1, r.2, by simp [fetchCamStyle, hi]⟩
  | error e =>
    refine ⟨g, 1, ?_⟩
    unfold fetchCamStyle
    rw [hi]
    simp [iterNext]

/-- Running the dual-stream loop with successful forwards and a good
auxiliary stream head: every batch is processed, the meters accumulate the
weighted sums, and the trace is one event quadruple per batch. -/
lemma camRun_spec (forward : β → γ → Except TrainError FwdRes) (L P : β → ℚ)
    (weight : β → ℕ) (g : γ) (rest0 : List (Except TrainError γ)) (pf ep tot : ℕ) :
    ∀ (bs : List β) (i : ℕ) (st : CamState),
      (∀ b ∈ bs, ∀ c, forward b c = .ok (.pair (L b) (.flt (P b)))) →
      ∃ st2,
        camRun forward weight (Except.ok g :: rest0) pf ep tot bs i st = .ok st2 ∧
        st2.losses.sum = st.losses.sum + wsum L weight bs ∧
        st2.losses.count = st.losses.count + wtot weight bs ∧
        st2.precisions.sum = st.precisions.sum + wsum P weight bs ∧
        st2.precisions.count = st.precisions.count + wtot weight bs ∧
        (bs ≠ [] → st2.losses.avg = st2.losses.sum / st2.losses.count ∧
                   st2.precisions.avg = st2.precisions.sum / st2.precisions.count) ∧
        (bs = [] → st2 = st) ∧
        st2.trace = st.trace ++ epochTrace bs.length := by
  intro bs
  induction bs with
  | nil =>
    intro i st h
    refine ⟨st, rfl, ?_, ?_, ?_, ?_, fun hne => absurd rfl hne, fun _ => rfl, ?_⟩
    all_goals simp [wsum, wtot, epochTrace_zero]
  | cons b rest ih =>
    intro i st h
    have hb := h b (List.mem_cons_self b rest)
    have hrest : ∀ x ∈ rest, ∀ c, forward x c = .ok (.pair (L x) (.flt (P x))) :=
      fun x hx => h x (List.mem_cons_of_mem b hx)
    obtain ⟨c, p2, hf⟩ := fetchCamStyle_head_ok g rest0 st.pos
    obtain ⟨st2, hrun, hL2, hC2, hP2, hPC2, havg, hnilcase, htr2⟩ :=
      ih (i + 1)
        { losses := st.losses.update (L b) (weight b : ℚ),
          precisions := st.precisions.update (P b) (weight b : ℚ),
          pos := p2,
          trace := st.trace ++ [.forwardCall, .zeroGrad, .backward, .optStep],
          logs := if (i + 1) % pf = 0 then
              st.logs ++ [.batchLine ep (i + 1) tot
                (st.losses.update (L b) (weight b : ℚ)).val
                (st.losses.update (L b) (weight b : ℚ)).avg
                (st.precisions.update (P b) (weight b : ℚ)).val
                (st.precisions.update (P b) (weight b : ℚ)).avg]
            else st.logs } hrest
    refine ⟨st2, ?_, ?_, ?_, ?_, ?_, fun _ => ?_, fun hcontra => ?_, ?_⟩
    · simp only [camRun, hf, hb c]
      exact hrun
    · rw [hL2, wsum_cons]
      simp [AverageMeter.update]
      ring
    · rw [hC2, wtot_cons]
      simp [AverageMeter.update]
      ring
    · rw [hP2, wsum_cons]
      simp [AverageMeter.update]
      ring
    · rw [hPC2, wtot_cons]
      simp [AverageMeter.update]
      ring
    · by_cases hr : rest = []
      · rw [hnilcase hr]
        exact ⟨rfl, rfl⟩
      · exact havg hr
    · exact absurd hcontra (List.cons_ne_nil b rest)
    · rw [htr2, List.length_cons, epochTrace_succ]
      simp

/-- A weighted average of values in [0,1] with weights ≥ 1 lies in [0,1]
(and equals 0 for an empty list, where both sums are 0). -/
lemma wavg_bounds (P : β → ℚ) (weight : β → ℕ) (bs : List β)
    (hP : ∀ b ∈ bs, 0 ≤ P b ∧ P b ≤ 1) (hw : ∀ b ∈ bs, 1 ≤ weight b) :
    0 ≤ wsum P weight bs / wtot weight bs ∧
    wsum P weight bs / wtot weight bs ≤ 1 := by
  rcases bs with _ | ⟨b, rest⟩
  · simp [wsum, wtot]
  · have h0 : 0 ≤ wsum P weight (b :: rest) := by
      unfold wsum
      apply List.sum_nonneg
      intro x hx
      simp only [List.mem_map] at hx
      obtain ⟨y, hy, rfl⟩ := hx
      exact mul_nonneg (hP y hy).1 (Nat.cast_nonneg _)
    have hle : wsum P weight (b :: rest) ≤ wtot weight (b :: rest) := by
      unfold wsum wtot
      apply List.sum_le_sum
      intro y hy
      calc P y * (weight y : ℚ) ≤ 1 * (weight y : ℚ) :=
            mul_le_mul_of_nonneg_right (hP y hy).2 (Nat.cast_nonneg _)
        _ = (weight y : ℚ) := one_mul _
    have hrest0 : 0 ≤ wtot weight rest := by
      unfold wtot
      apply List.sum_nonneg
      intro x hx
      simp only [List.mem_map] at hx
      obtain ⟨y, hy, rfl⟩ := hx
      exact Nat.cast_nonneg _
    have hb1 : (1 : ℚ) ≤ (weight b : ℚ) := by
      exact_mod_cast hw b (List.mem_cons_self b rest)
    have hpos : 0 < wtot weight (b :: rest) := by
      rw [wtot_cons]
      linarith
    exact ⟨div_nonneg h0 hpos.le, (div_le_one hpos).mpr hle⟩

/-- Claim C5: one `train` call over a primary stream of B batches performs
the forward dispatch exactly B times and the optimizer step exactly B
times — one of each per batch, in order, with no early termination — and
returns the weighted running averages of loss and precision, the latter in
[0,1].  This covers the single-stream trainer (any well-shaped criterion)
and the dual-stream trainer (whose auxiliary stream must provide a batch). -/
theorem c5_epoch_counts_and_averages :
    (∀ (crit : Criterion) (forward : β → Except TrainError FwdRes)
       (R : β → FwdRes) (weight : β → ℕ) (pf ep : ℕ) (bs : List β),
      (∀ b ∈ bs, forward b = .ok (R b)) →
      (∀ b ∈ bs, shapeOk crit (R b) = true) →
      (∀ b ∈ bs, 0 ≤ (R b).precQ ∧ (R b).precQ ≤ 1) →
      (∀ b ∈ bs, 1 ≤ weight b) →
      ∃ res, Trainer.train crit forward weight pf ep bs = .ok res ∧
        res.trace = epochTrace bs.length ∧
        countEvent .forwardCall res.trace = bs.length ∧
        countEvent .optStep res.trace = bs.length ∧
        res.avgLoss = wsum (fun b => (R b).lossQ) weight bs / wtot weight bs ∧
        res.avgPrec = wsum (fun b => (R b).precQ) weight bs / wtot weight bs ∧
        0 ≤ res.avgPrec ∧ res.avgPrec ≤ 1) ∧
    (∀ (forward : β → γ → Except TrainError FwdRes) (L P : β → ℚ)
       (weight : β → ℕ) (g : γ) (rest0 : List (Except TrainError γ))
       (pf ep pos0 : ℕ) (bs : List β),
      (∀ b ∈ bs, ∀ c, forward b c = .ok (.pair (L b) (.flt (P b)))) →
      (∀ b ∈ bs, 0 ≤ P b ∧ P b ≤ 1) →
      (∀ b ∈ bs, 1 ≤ weight b) →
      ∃ res, CamStyleTrainer.train forward weight (Except.ok g :: rest0)
          pf ep pos0 bs = .ok res ∧
        res.trace = epochTrace bs.length ∧
        countEvent .forwardCall res.trace = bs.length ∧
        countEvent .optStep res.trace = bs.length ∧
        res.avgLoss = wsum L weight bs / wtot weight bs ∧
        res.avgPrec = wsum P weight bs / wtot weight bs ∧
        0 ≤ res.avgPrec ∧ res.avgPrec ≤ 1) := by
  constructor
  · intro crit forward R weight pf ep bs h1 h2 h3 h4
    obtain ⟨st2, hrun, hLs, hLc, hPs, hPc, havg, hnil, htr⟩ :=
      trainerRun_spec crit forward R weight pf ep bs.length bs 0 initTrainerState
        (fun b hb => ⟨h1 b hb, h2 b hb⟩)
    have htr2 : st2.trace = epochTrace bs.length := by
      simpa [initTrainerState] using htr
    have hAL : st2.losses.avg
        = wsum (fun b => (R b).lossQ) weight bs / wtot weight bs := by
      rcases eq_or_ne bs ([] : List β) with hbs | hbs
      · subst hbs
        rw [hnil rfl]
        simp [initTrainerState, AverageMeter.empty, wsum, wtot]
      · rw [(havg hbs).1, hLs, hLc]
        simp [initTrainerState, AverageMeter.empty]
    have hAP : st2.precisions.avg
        = wsum (fun b => (R b).precQ) weight bs / wtot weight bs := by
      rcases eq_or_ne bs ([] : List β) with hbs | hbs
      · subst hbs
        rw [hnil rfl]
        simp [initTrainerState, AverageMeter.empty, wsum, wtot]
      · rw [(havg hbs).2, hPs, hPc]
        simp [initTrainerState, AverageMeter.empty]
    have hbounds := wavg_bounds (fun b => (R b).precQ) weight bs h3 h4
    refine ⟨_, by unfold Trainer.train; rw [hrun], htr2, ?_, ?_, hAL, hAP, ?_, ?_⟩
    · show countEvent .forwardCall st2.trace = bs.length
      rw [htr2]
      exact countEvent_epochTrace_forward _
    · show countEvent .optStep st2.trace = bs.length
      rw [htr2]
      exact countEvent_epochTrace_step _
    · show 0 ≤ st2.precisions.avg
      rw [hAP]
      exact hbounds.1
    · show st2.precisions.avg ≤ 1
      rw [hAP]
      exact hbounds.2
  · intro forward L P weight g rest0 pf ep pos0 bs hf hP hw
    obtain ⟨st2, hrun, hLs, hLc, hPs, hPc, havg, hnil, htr⟩ :=
      camRun_spec forward L P weight g rest0 pf ep bs.length bs 0
        ⟨.empty, .empty, pos0, [], []⟩ hf
    have htr2 : st2.trace = epochTrace bs.length := by
      simpa using htr
    have hAL : st2.losses.avg = wsum L weight bs / wtot weight bs := by
      rcases eq_or_ne bs ([] : List β) with hbs | hbs
      · subst hbs
        rw [hnil rfl]
        simp [AverageMeter.empty, wsum, wtot]
      · rw [(havg hbs).1, hLs, hLc]
        simp [AverageMeter.empty]
    have hAP : st2.precisions.avg = wsum P weight bs / wtot weight bs := by
      rcases eq_or_ne bs ([] : List β) with hbs | hbs
      · subst hbs
        rw [hnil rfl]
        simp [AverageMeter.empty, wsum, wtot]
      · rw [(havg hbs).2, hPs, hPc]
        simp [AverageMeter.empty]
    have hbounds := wavg_bounds P weight bs hP hw
    refine ⟨_, by unfold CamStyleTrainer.train; rw [hrun], htr2, ?_, ?_, hAL, hAP, ?_, ?_⟩
    · show countEvent .forwardCall st2.trace = bs.length
      rw [htr2]
      exact countEvent_epochTrace_forward _
    · show countEvent .optStep st2.trace = bs.length
      rw [htr2]
      exact countEvent_epochTrace_step _
    · show 0 ≤ st2.precisions.avg
      rw [hAP]
      exact hbounds.1
    · show st2.precisions.avg ≤ 1
      rw [hAP]
      exact hbounds.2

/-- Witness for C5: two constant batches through the single-stream trainer
and one batch through the dual-stream trainer. -/
theorem c5_epoch_counts_and_averages_witness :
    (∃ res, Trainer.train .crossEntropy
        (fun _ : Unit => Except.ok (FwdRes.pair 2 (PrecValue.flt 1)))
        (fun _ => 1) 10 0 [(), ()] = .ok res ∧
      res.trace = epochTrace 2 ∧
      countEvent .forwardCall res.trace = 2 ∧
      countEvent .optStep res.trace = 2 ∧
      res.avgLoss = wsum (fun _ => (2 : ℚ)) (fun _ => 1) [(), ()]
        / wtot (fun _ => 1) [(), ()] ∧
      res.avgPrec = wsum (fun _ => (1 : ℚ)) (fun _ => 1) [(), ()]
        / wtot (fun _ => 1) [(), ()] ∧
      0 ≤ res.avgPrec ∧ res.avgPrec ≤ 1) ∧
    (∃ res, CamStyleTrainer.train
        (fun (_ : Unit) (_ : Unit) => Except.ok (FwdRes.pair 2 (PrecValue.flt 1)))
        (fun _ => 1) [Except.ok ()] 10 0 0 [()] = .ok res ∧
      res.trace = epochTrace 1 ∧
      countEvent .forwardCall res.trace = 1 ∧
      countEvent .optStep res.trace = 1 ∧
      res.avgLoss = wsum (fun _ => (2 : ℚ)) (fun _ => 1) [()]
        / wtot (fun _ => 1) [()] ∧
      res.avgPrec = wsum (fun _ => (1 : ℚ)) (fun _ => 1) [()]
        / wtot (fun _ => 1) [()] ∧
      0 ≤ res.avgPrec ∧ res.avgPrec ≤ 1) :=
  ⟨(@c5_epoch_counts_and_averages Unit Unit).1 .crossEntropy
      (fun _ => Except.ok (FwdRes.pair 2 (PrecValue.flt 1)))
      (fun _ => FwdRes.pair 2 (PrecValue.flt 1)) (fun _ => 1) 10 0 [(), ()]
      (fun _ _ => rfl) (fun _ _ => rfl)
      (fun _ _ => ⟨zero_le_one, le_refl _⟩) (fun _ _ => le_refl 1),
   (@c5_epoch_counts_and_averages Unit Unit).2
      (fun _ _ => Except.ok (FwdRes.pair 2 (PrecValue.flt 1)))
      (fun _ => 2) (fun _ => 1) (fun _ => 1) () [] 10 0 0 [()]
      (fun _ _ _ => rfl)
      (fun _ _ => ⟨zero_le_one, le_refl _⟩) (fun _ _ => le_refl 1)⟩

/-- The state computed by the triplet branch of the loop body (lines 62-86):
the five triplet meters take the batch's computed values with weight 1, the
loss/precision meters take the batch's loss and precision with the batch
weight, the optimizer events are appended, and nothing is printed. -/
def tripletStepState (margin : ℚ) (w : ℕ) (loss : ℚ) (p : PrecValue)
    (dap dan : List ℚ) (st : TrainerState) : TrainerState :=
  { prec_meter := st.prec_meter.update p.toQ 1,
    sm_meter := st.sm_meter.update (listMean (smVec margin dap dan)) 1,
    dist_ap_meter := st.dist_ap_meter.update (listMean dap) 1,
    dist_an_meter := st.dist_an_meter.update (listMean dan) 1,
    loss_meter := st.loss_meter.update loss 1,
    losses := st.losses.update loss (w : ℚ),
    precisions := st.precisions.update p.toQ (w : ℚ),
    trace := st.trace ++ [.zeroGrad, .backward, .optStep],
    logs := st.logs }

lemma trainerStep_triplet (margin : ℚ) (pf ep tot w i : ℕ) (loss : ℚ)
    (p : PrecValue) (dap dan : List ℚ) (st : TrainerState) :
    trainerStep (.triplet margin) pf ep tot w i (.quad loss p dap dan) st
      = .ok (tripletStepState margin w loss p dap dan st) := rfl

/-- Over a triplet epoch the loop prints nothing, and the meters' `val`
fields end at the values computed from the LAST batch. -/
lemma trainerRun_triplet_last (margin : ℚ)
    (forward : β → Except TrainError FwdRes) (R : β → FwdRes)
    (weight : β → ℕ) (pf ep tot : ℕ) :
    ∀ (bs : List β) (blast : β) (i : ℕ) (st : TrainerState)
      (l : ℚ) (p : PrecValue) (dap dan : List ℚ),
      (∀ b ∈ bs ++ [blast],
        forward b = .ok (R b) ∧ shapeOk (.triplet margin) (R b) = true) →
      R blast = .quad l p dap dan →
      ∃ st2, trainerRun (.triplet margin) forward weight pf ep tot
          (bs ++ [blast]) i st = .ok st2 ∧
        st2.logs = st.logs ∧
        st2.prec_meter.val = p.toQ ∧
        st2.sm_meter.val = listMean (smVec margin dap dan) ∧
        st2.dist_ap_meter.val = listMean dap ∧
        st2.dist_an_meter.val = listMean dan ∧
        st2.loss_meter.val = l := by
  intro bs
  induction bs with
  | nil =>
    intro blast i st l p dap dan h hR
    have hb := h blast (by simp)
    have hfwd : forward blast = .ok (.quad l p dap dan) := by rw [hb.1, hR]
    refine ⟨tripletStepState margin (weight blast) l p dap dan
      { st with trace := st.trace ++ [.forwardCall] },
      ?_, rfl, rfl, rfl, rfl, rfl, rfl⟩
    show trainerRun (.triplet margin) forward weight pf ep tot [blast] i st = _
    simp only [trainerRun, hfwd, trainerStep_triplet]
  | cons a bs ih =>
    intro blast i st l p dap dan h hR
    have hb := h a (List.mem_cons_self a _)
    have hrest : ∀ x ∈ bs ++ [blast],
        forward x = .ok (R x) ∧ shapeOk (.triplet margin) (R x) = true :=
      fun x hx => h x (List.mem_cons_of_mem a hx)
    cases hRa : R a with
    | pair l0 p0 =>
      have hb2 := hb.2
      rw [hRa] at hb2
      simp [shapeOk] at hb2
    | quad la pa dapa dana =>
      have hfwd : forward a = .ok (.quad la pa dapa dana) := by rw [hb.1, hRa]
      obtain ⟨st2, hrun, hlogs, h1, h2, h3, h4, h5⟩ :=
        ih blast (i + 1) (tripletStepState margin (weight a) la pa dapa dana
          { st with trace := st.trace ++ [.forwardCall] }) l p dap dan hrest hR
      refine ⟨st2, ?_, ?_, h1, h2, h3, h4, h5⟩
      · show trainerRun (.triplet margin) forward weight pf ep tot
          (a :: (bs ++ [blast])) i st = .ok st2
        simp only [trainerRun, hfwd, trainerStep_triplet]
        exact hrun
      · rw [hlogs]
        rfl

/-- Claim C7: in the single-stream trainer with a metric (triplet) loss, no
throttled per-batch log line is emitted at any batch index, and the
epoch-end summary reports the LAST batch's precision, margin-satisfaction
rate, mean anchor-positive/anchor-negative distances and loss — the
meters' last updated values, not their running averages. -/
theorem c7_triplet_logging :
    ∀ (margin : ℚ) (forward : β → Except TrainError FwdRes) (R : β → FwdRes)
      (weight : β → ℕ) (pf ep : ℕ) (bs : List β) (blast : β)
      (l : ℚ) (p : PrecValue) (dap dan : List ℚ),
      (∀ b ∈ bs ++ [blast],
        forward b = .ok (R b) ∧ shapeOk (.triplet margin) (R b) = true) →
      R blast = .quad l p dap dan →
      ∃ res, Trainer.train (.triplet margin) forward weight pf ep
          (bs ++ [blast]) = .ok res ∧
        res.logs = [.triSummary p.toQ (listMean (smVec margin dap dan))
          (listMean dap) (listMean dan) l] := by
  intro margin forward R weight pf ep bs blast l p dap dan h hR
  obtain ⟨st2, hrun, hlogs, h1, h2, h3, h4, h5⟩ :=
    trainerRun_triplet_last margin forward R weight pf ep (bs ++ [blast]).length
      bs blast 0 initTrainerState l p dap dan h hR
  refine ⟨_, by unfold Trainer.train; rw [hrun], ?_⟩
  show st2.logs ++ [.triSummary st2.prec_meter.val st2.sm_meter.val
      st2.dist_ap_meter.val st2.dist_an_meter.val st2.loss_meter.val] = _
  rw [hlogs, h1, h2, h3, h4, h5]
  rfl

/-- Witness for C7: a single triplet batch; the summary carries that
batch's precision 1, satisfaction rate 1, distances 1 and 2, and loss 1. -/
theorem c7_triplet_logging_witness :
    ∃ res, Trainer.train (.triplet 0)
        (fun _ : Unit => Except.ok (FwdRes.quad 1 (PrecValue.flt 1) [1] [2]))
        (fun _ => 1) 10 0 ([] ++ [()]) = .ok res ∧
      res.logs = [.triSummary (PrecValue.flt 1).toQ (listMean (smVec 0 [1] [2]))
        (listMean [1]) (listMean [2]) 1] :=
  c7_triplet_logging 0 (fun _ => Except.ok (FwdRes.quad 1 (PrecValue.flt 1) [1] [2]))
    (fun _ => FwdRes.quad 1 (PrecValue.flt 1) [1] [2]) (fun _ => 1) 10 0 [] ()
    1 (PrecValue.flt 1) [1] [2] (fun _ _ => ⟨rfl, rfl⟩) rfl
